import Mathlib

/-!
Shallow embedding of `src/api/agent/drivers/docker/imageCache.go`.

Modelling conventions:
* `time.Time` and `time.Duration` are modelled as `Int` nanoseconds; every
  operation that reads `time.Now()` in Go takes an explicit `now : Int`.
* Go `int64` arithmetic is modelled as `Int` (the values involved never
  approach 2^63 in the claims considered); Go's truncating `int64` division
  is `Int.tdiv`. Go panics on division by zero while `Int.tdiv x 0 = 0`; the
  model is therefore faithful only on entries with a non-zero use count
  (the source can in fact reach a zero divisor, see `NewEntry`).
* The `sync.Mutex` operations are erased: each method is embedded as its
  sequential body. (Note the Go `Add` re-enters the held non-reentrant
  mutex via `Contains`/`Mark`; that runtime deadlock is outside the
  sequential model and is reported separately.)
* `d.APIImages` is reduced to the two fields the cache reads: `ID` and `Size`.
* Methods returning `error` return a `× Option String` component,
  `none` for the Go `nil` error.
-/

structure APIImages where
  id : String
  size : Int
deriving DecidableEq, Repr, Inhabited

structure Entry where
  lastUsed : Int
  locked : Bool
  uses : Int
  image : APIImages
deriving DecidableEq, Repr, Inhabited

/-- `func (e Entry) Score() int64`: `age := time.Now().Sub(e.lastUsed);
return age.Nanoseconds() / e.uses`. -/
def Entry.Score (now : Int) (e : Entry) : Int :=
  Int.tdiv (now - e.lastUsed) e.uses

structure Cache where
  totalSize : Int
  cache : List Entry
  maxSize : Int
deriving DecidableEq, Repr

/-- `NewEntry` from the source: note `uses: 0`. -/
def NewEntry (now : Int) (value : APIImages) : Entry :=
  { lastUsed := now, locked := false, uses := 0, image := value }

/-- `NewCache` from the source: the struct literal sets only `cache`;
the `maxSize` argument is not used, so the Go zero value leaves both
`totalSize` and `maxSize` at `0`. -/
def NewCache (maxSize : Int) : Cache :=
  { totalSize := 0, cache := [], maxSize := 0 }

def Cache.Contains (c : Cache) (value : APIImages) : Bool :=
  c.cache.any (fun e => e.image.id == value.id)

/-- The loop body of `Cache.Mark`: update the first entry whose image ID
matches (the Go loop assigns through `c.cache[idx]` and returns), `none`
when no entry matches. -/
def markList (now : Int) (ID : String) : List Entry → Option (List Entry)
  | [] => none
  | e :: rest =>
    if e.image.id == ID then
      some ({ e with lastUsed := now, uses := e.uses + 1 } :: rest)
    else
      (markList now ID rest).map (fun l => e :: l)

def Cache.Mark (c : Cache) (now : Int) (ID : String) : Cache × Option String :=
  match markList now ID c.cache with
  | some l => ({ c with cache := l }, none)
  | none => (c, some "Image not found in cache")

/-- `Cache.Remove`: the first matching index is overwritten with the last
element and the slice is shortened by one. `totalSize` is not touched by
the source. -/
def Cache.Remove (c : Cache) (value : APIImages) : Cache × Option String :=
  match c.cache.findIdx? (fun e => e.image.id == value.id) with
  | some idx =>
      ({ c with cache := (c.cache.set idx (c.cache.getLastD default)).dropLast },
       none)
  | none => (c, some "Image not found in cache")

/-- `Cache.Lock`: the Go range variable `i` is a value copy of the entry,
so `i.locked = true` mutates only the copy; the cache state is unchanged
and only the returned error depends on whether the ID was found. -/
def Cache.Lock (c : Cache) (ID : String) : Cache × Option String :=
  if c.cache.any (fun e => e.image.id == ID) then (c, none)
  else (c, some "Image not found in cache")

def Cache.Locked (c : Cache) (value : APIImages) : Bool × Option String :=
  match c.cache.find? (fun e => e.image.id == value.id) with
  | some e => (e.locked, none)
  | none => (false, some "Image not found in cache")

/-- `Cache.Unlock`: as in `Lock`, `i.locked = false` writes to the range
copy, so the state is unchanged; the method returns no error. -/
def Cache.Unlock (c : Cache) (value : APIImages) : Cache :=
  c

def Cache.Add (c : Cache) (now : Int) (value : APIImages) : Cache :=
  if c.Contains value then (c.Mark now value.id).1
  else { c with cache := c.cache ++ [NewEntry now value],
                totalSize := c.totalSize + value.size }

def Cache.TotalSize (c : Cache) : Int :=
  c.totalSize

def Cache.OverFilled (c : Cache) : Bool :=
  c.totalSize < c.maxSize

/-- `Cache.Evictable`: filter out locked entries, then `sort.Sort` with
`Less i j = Score(i) < Score(j)`. `sort.Sort` promises only a permutation
that is sorted with respect to `Less`; we realise it with insertion sort
on the non-strict order. -/
def Cache.Evictable (c : Cache) (now : Int) : List Entry :=
  List.insertionSort (fun a b => Entry.Score now a ≤ Entry.Score now b)
    (c.cache.filter (fun e => e.locked == false))

def Cache.Len (c : Cache) : Nat :=
  c.cache.length

/-- The quantity the spec calls the sum of `sizeBytes` over the entries
currently present (not a source function; used to state the `totalSize`
invariant). -/
def Cache.entriesSize (c : Cache) : Int :=
  (c.cache.map (fun e => e.image.size)).sum

/-! ## Concrete states used in the theorems below -/

def imgA : APIImages := { id := "a", size := 5 }

/-- The cache reached by `NewCache(10)` followed by `Add(imgA)` at time 0
(in the sequential, mutex-erased semantics of `Add`). -/
def cacheA : Cache := (NewCache 10).Add 0 imgA

example : cacheA =
    { totalSize := 5,
      cache := [{ lastUsed := 0, locked := false, uses := 0, image := imgA }],
      maxSize := 0 } := by decide

/-- C1: `Remove` deletes the entry but never subtracts its size from
`totalSize`. After `Add(imgA)` then `Remove(imgA)` the cache holds no
entries, the sum of sizes of present entries is `0`, yet `TotalSize()`
still reports `5`. -/
theorem C1_remove_does_not_subtract_size :
    (cacheA.Remove imgA).2 = none ∧
    (cacheA.Remove imgA).1.cache = [] ∧
    (cacheA.Remove imgA).1.entriesSize = 0 ∧
    (cacheA.Remove imgA).1.TotalSize = 5 := by decide

/-- C2: `OverFilled` tests `totalSize < maxSize`, the opposite of the
claimed `TotalSize() > maxSize`. On the reachable state `cacheA`
(`totalSize = 5`, `maxSize = 0`) the total strictly exceeds the bound,
yet `OverFilled` returns `false`. -/
theorem C2_overFilled_comparison_inverted :
    cacheA.TotalSize > cacheA.maxSize ∧ cacheA.OverFilled = false := by decide

/-- C3: `NewCache(5)` ignores its argument; the constructed cache stores
`maxSize = 0`, not the supplied `5`. -/
theorem C3_newCache_drops_maxSize :
    (NewCache 5).maxSize = 0 ∧ ¬ (NewCache 5).maxSize = 5 := by decide

/-- C4: an entry created by `Add` (via `NewEntry`) starts with `uses = 0`,
not `1`; its very first `Score` therefore divides by zero (a runtime panic
in Go; `Int.tdiv _ 0 = 0` in the model). -/
theorem C4_uses_starts_at_zero :
    (NewEntry 0 imgA).uses = 0 ∧ ¬ (NewEntry 0 imgA).uses = 1 ∧
    (cacheA.cache.getD 0 default).uses = 0 := by decide

/-- C5: `Lock("a")` on a cache containing image `"a"` reports success
(`nil` error) yet changes nothing, because the Go loop assigns to the
range copy; the subsequent `Locked(imgA)` still returns `false`. -/
theorem C5_lock_is_a_no_op :
    cacheA.Lock "a" = (cacheA, none) ∧
    (cacheA.Locked imgA).1 = false ∧ (cacheA.Locked imgA).2 = none := by decide

/-- C7: evaluated in the sequential, mutex-erased semantics, a second
`Add` of the already-present `imgA` marks the entry (uses 0 → 1, lastUsed
0 → 1) without appending a second entry or adding its size again. The Go
method itself never reaches this behaviour: holding `c.mu`, it calls
`Contains` (and `Mark`), which acquire `c.mu` again, a self-deadlock on a
non-reentrant `sync.Mutex`. -/
theorem C7_second_add_in_sequential_model :
    (cacheA.Add 1 imgA).TotalSize = 5 ∧
    (cacheA.Add 1 imgA).Len = 1 ∧
    (cacheA.Add 1 imgA).cache =
      [{ lastUsed := 1, locked := false, uses := 1, image := imgA }] := by decide

def entU : Entry := { lastUsed := 0, locked := false, uses := 1, image := imgA }

def cacheU : Cache := { totalSize := 5, cache := [entU], maxSize := 0 }

/-- C6: a locked (pinned) entry never appears in the result of
`Evictable()`: the method keeps exactly the entries with `locked = false`
before sorting. -/
theorem C6_evictable_excludes_locked (c : Cache) (now : Int) (e : Entry)
    (h : e ∈ c.Evictable now) : e.locked = false := by
  simp only [Cache.Evictable] at h
  have h1 : e ∈ c.cache.filter (fun x => x.locked == false) :=
    (List.mem_insertionSort _).mp h
  have h2 := (List.mem_filter.mp h1).2
  simpa using h2

/-- Witness for C6 at a concrete one-entry cache. -/
theorem C6_witness : entU.locked = false :=
  C6_evictable_excludes_locked cacheU 3 entU (by decide)

/-- `markList` fails exactly when no entry's image ID matches. -/
theorem markList_eq_none (now : Int) (ID : String) :
    ∀ l : List Entry,
      markList now ID l = none ↔ l.any (fun e => e.image.id == ID) = false
  | [] => by simp [markList]
  | e :: rest => by
    cases hx : (e.image.id == ID) <;>
      simp [markList, hx, markList_eq_none now ID rest]

/-- C8: each identity-keyed operation (`Mark`, `Lock`, `Locked`, `Remove`)
returns an error exactly when the identity is absent (`Contains` false),
while `Unlock` returns no error (its return type carries none) and leaves
the state unchanged on an absent identity. -/
theorem C8_missing_identity_errors (c : Cache) (now : Int) (value : APIImages) :
    ((c.Mark now value.id).2.isSome ↔ c.Contains value = false) ∧
    ((c.Lock value.id).2.isSome ↔ c.Contains value = false) ∧
    ((c.Locked value).2.isSome ↔ c.Contains value = false) ∧
    ((c.Remove value).2.isSome ↔ c.Contains value = false) ∧
    (c.Contains value = false → c.Unlock value = c) := by
  refine ⟨?_, ?_, ?_, ?_, fun _ => rfl⟩
  · unfold Cache.Mark
    cases hm : markList now value.id c.cache with
    | none =>
        have := (markList_eq_none now value.id c.cache).mp hm
        simp [Cache.Contains, this]
    | some l =>
        have hne : ¬ c.cache.any (fun e => e.image.id == value.id) = false := by
          intro hany
          rw [← markList_eq_none now value.id c.cache] at hany
          rw [hany] at hm
          exact Option.noConfusion hm
        simp only [Cache.Contains]
        simp [hne]
  · unfold Cache.Lock
    cases hany : c.cache.any (fun e => e.image.id == value.id) <;>
      simp [Cache.Contains, hany]
  · unfold Cache.Locked
    cases hf : c.cache.find? (fun e => e.image.id == value.id) with
    | none =>
        have hall := List.find?_eq_none.mp hf
        have : c.cache.any (fun e => e.image.id == value.id) = false := by
          simp only [List.any_eq_false]
          intro x hx
          exact fun hb => hall x hx hb
        simp [Cache.Contains, this]
    | some e =>
        have he := List.find?_some hf
        have hmem := List.mem_of_find?_eq_some hf
        have : c.cache.any (fun x => x.image.id == value.id) = true :=
          List.any_eq_true.mpr ⟨e, hmem, he⟩
        simp [Cache.Contains, this]
  · unfold Cache.Remove
    cases hi : c.cache.findIdx? (fun e => e.image.id == value.id) with
    | none =>
        have hall := List.findIdx?_eq_none_iff.mp hi
        have : c.cache.any (fun e => e.image.id == value.id) = false := by
          simp only [List.any_eq_false]
          intro x hx
          simpa using hall x hx
        simp [Cache.Contains, this]
    | some idx =>
        have hne : ¬ c.cache.any (fun e => e.image.id == value.id) = false := by
          intro hany
          have : c.cache.findIdx? (fun e => e.image.id == value.id) = none :=
            List.findIdx?_eq_none_iff.mpr
              (fun x hx => by simpa using List.any_eq_false.mp hany x hx)
          rw [this] at hi
          exact Option.noConfusion hi
        simp only [Cache.Contains]
        simp [hne]

/-- Witness for C8: `Unlock` on the empty cache (identity absent) leaves
the state unchanged. -/
theorem C8_witness : (NewCache 1).Unlock imgA = NewCache 1 :=
  (C8_missing_identity_errors (NewCache 1) 0 imgA).2.2.2.2 (by decide)

def entA : Entry :=
  { lastUsed := 0, locked := false, uses := 10, image := { id := "A", size := 1 } }

def entB : Entry :=
  { lastUsed := 0, locked := false, uses := 1, image := { id := "B", size := 1 } }

def cacheAB : Cache := { totalSize := 2, cache := [entB, entA], maxSize := 0 }

/-- C9 counterexample: two unpinned entries of equal age (lastUsed 0,
scored at now = 3600): A with 10 uses scores 360, B with 1 use scores
3600, so `Evictable()` ranks A (the larger use count) first — not B as
the claim states. -/
theorem C9_counterexample_ranking :
    cacheAB.Evictable 3600 = [entA, entB] ∧
    entA.uses = 10 ∧ entB.uses = 1 ∧
    entA.lastUsed = entB.lastUsed ∧
    entA.locked = false ∧ entB.locked = false ∧
    ¬ cacheAB.Evictable 3600 = [entB, entA] := by decide

/-- C9 (amended): on caches where every use count is positive (so the Go
division is defined), `Evictable()` is a permutation of the unpinned
entries sorted ascending by `Score`; for two unpinned entries of equal
age, the one with the larger use count (hence smaller score) is ranked
first, as the concrete A/B state shows. -/
theorem C9_evictable_sorted_by_score (c : Cache) (now : Int)
    (h : ∀ e ∈ c.cache, 0 < e.uses) :
    List.Sorted (fun a b => Entry.Score now a ≤ Entry.Score now b)
      (c.Evictable now) ∧
    (c.Evictable now).Perm (c.cache.filter (fun e => e.locked == false)) ∧
    (∀ e ∈ c.Evictable now, 0 < e.uses) ∧
    cacheAB.Evictable 3600 = [entA, entB] := by
  refine ⟨?_, ?_, ?_, by decide⟩
  · haveI : IsTotal Entry (fun a b => Entry.Score now a ≤ Entry.Score now b) :=
      ⟨fun a b => le_total _ _⟩
    haveI : IsTrans Entry (fun a b => Entry.Score now a ≤ Entry.Score now b) :=
      ⟨fun a b d hab hbd => le_trans hab hbd⟩
    exact List.sorted_insertionSort _ _
  · exact List.perm_insertionSort _ _
  · intro e he
    have h1 : e ∈ c.cache.filter (fun x => x.locked == false) :=
      (List.mem_insertionSort _).mp he
    exact h e (List.mem_of_mem_filter h1)

/-- Witness for C9 at the concrete two-entry cache. -/
theorem C9_witness :
    List.Sorted (fun a b => Entry.Score 3600 a ≤ Entry.Score 3600 b)
      (cacheAB.Evictable 3600) ∧
    (cacheAB.Evictable 3600).Perm
      (cacheAB.cache.filter (fun e => e.locked == false)) ∧
    (∀ e ∈ cacheAB.Evictable 3600, 0 < e.uses) ∧
    cacheAB.Evictable 3600 = [entA, entB] :=
  C9_evictable_sorted_by_score cacheAB 3600 (by decide)

/-- A successful `markList` splits the list around the first matching
entry: the prefix and suffix are returned unchanged and only the matching
entry is replaced by its updated copy. -/
theorem markList_some (now : Int) (ID : String) :
    ∀ l l' : List Entry, markList now ID l = some l' →
      ∃ pre e post, l = pre ++ e :: post ∧ e.image.id = ID ∧
        l' = pre ++ { e with lastUsed := now, uses := e.uses + 1 } :: post
  | [], l', h => by simp [markList] at h
  | x :: xs, l', h => by
    rw [markList] at h
    by_cases hx : x.image.id == ID
    · rw [if_pos hx] at h
      refine ⟨[], x, xs, rfl, by simpa using hx, ?_⟩
      simpa using h.symm
    · rw [if_neg hx] at h
      obtain ⟨t, ht, rfl⟩ := Option.map_eq_some'.mp h
      obtain ⟨pre, e, post, hl, he, ht'⟩ := markList_some now ID xs t ht
      exact ⟨x :: pre, e, post, by rw [hl]; rfl, he, by rw [ht']; rfl⟩

/-- C10: a successful `Mark(ID)` at time `now` (with `now` at or after
every stored timestamp, as `time.Now()` is) rewrites exactly the first
matching entry — its `lastUsed` becomes `now ≥` its old value and its use
count becomes `uses + 1 > uses` — while the entries before and after it,
and the `totalSize`/`maxSize` fields, are unchanged. -/
theorem C10_mark_updates_only_target (c : Cache) (now : Int) (ID : String)
    (c' : Cache) (h : c.Mark now ID = (c', none))
    (hmono : ∀ e ∈ c.cache, e.lastUsed ≤ now) :
    c'.totalSize = c.totalSize ∧ c'.maxSize = c.maxSize ∧
    ∃ pre e post,
      c.cache = pre ++ e :: post ∧
      e.image.id = ID ∧
      c'.cache = pre ++ { e with lastUsed := now, uses := e.uses + 1 } :: post ∧
      e.lastUsed ≤ now ∧
      e.uses < e.uses + 1 := by
  unfold Cache.Mark at h
  cases hm : markList now ID c.cache with
  | none =>
      rw [hm] at h
      exact absurd (congrArg Prod.snd h) (by simp)
  | some l =>
      rw [hm] at h
      have hc' : c' = { c with cache := l } := ((Prod.ext_iff.mp h).1).symm
      subst hc'
      obtain ⟨pre, e, post, hl, he, ht⟩ := markList_some now ID c.cache l hm
      refine ⟨rfl, rfl, pre, e, post, hl, he, ht, ?_, lt_add_one e.uses⟩
      exact hmono e (by rw [hl]; exact List.mem_append_right _ (List.mem_cons_self _ _))

/-- Witness for C10: marking the one-entry cache `cacheU` at time 4. -/
theorem C10_witness :
    (cacheU.Mark 4 "a").1.totalSize = cacheU.totalSize ∧
    (cacheU.Mark 4 "a").1.maxSize = cacheU.maxSize ∧
    ∃ pre e post,
      cacheU.cache = pre ++ e :: post ∧
      e.image.id = "a" ∧
      (cacheU.Mark 4 "a").1.cache =
        pre ++ { e with lastUsed := 4, uses := e.uses + 1 } :: post ∧
      e.lastUsed ≤ 4 ∧
      e.uses < e.uses + 1 :=
  C10_mark_updates_only_target cacheU 4 "a" (cacheU.Mark 4 "a").1
    (by decide) (by decide)
